import Mathlib

/-!
Verification of the 3D bookmark maker pipeline.

This file gives a shallow embedding, in Lean 4, of the numeric and geometric
core of the repository: the color quantizer, the index-map smoother, the
layer mesh builder, the binary STL serializer and the 3MF packaging step.
JavaScript numbers are modelled as rationals, typed arrays as lists, and the
two random draws of the quantizer seeding step are passed in as explicit
parameters.  Theorems about the claims of the specification follow the
definitions.
-/

/-! ## Constants (constants.ts) -/

def BOOKMARK_WIDTH_MM : ℚ := 50

def BOOKMARK_HEIGHT_MM : ℚ := 160

-- RES_PPM = 8 pixels per millimeter; the canvas is 400 x 1280 pixels.
def RES_PPM : ℕ := 8

def CANVAS_WIDTH : ℕ := 50 * 8

def CANVAS_HEIGHT : ℕ := 160 * 8

/-! ## Data model (types.ts) -/

structure RGB where
  r : ℚ
  g : ℚ
  b : ℚ
deriving DecidableEq

instance : Inhabited RGB := ⟨⟨0, 0, 0⟩⟩

structure BookmarkSettings where
  baseHeight : ℚ
  layerHeights : List ℚ
  isTactile : Bool
  widthMm : ℚ
  heightMm : ℚ
  smoothing : ℕ

/-! ## Index map smoother (smoothIndices)

The smoother works on a row-major index map.  A pass reads the 3x3
neighborhood of every pixel with border clamping and writes the most frequent
index value, lowest value first on ties.  The imperative counts array indexed
by sample value is modelled by List.count on the 9-sample list; the fold over
the four candidate indices mirrors the maxCount loop, whose running maximum
starts at -1 and is only replaced on strict increase.
-/

def clampI (lo hi v : ℤ) : ℤ := max lo (min hi v)

-- Traversal order of the 3x3 neighborhood: ny outer from -1 to 1, nx inner.
def neighborOffsets : List (ℤ × ℤ) :=
  [(-1, -1), (-1, 0), (-1, 1), (0, -1), (0, 0), (0, 1), (1, -1), (1, 0), (1, 1)]

def sampleAt (cur : List ℕ) (width height : ℕ) (x y : ℕ) (o : ℤ × ℤ) : ℕ :=
  let curY := clampI 0 ((height : ℤ) - 1) ((y : ℤ) + o.1)
  let curX := clampI 0 ((width : ℤ) - 1) ((x : ℤ) + o.2)
  cur.getD (curY * (width : ℤ) + curX).toNat 0

def neighborSamples (cur : List ℕ) (width height : ℕ) (x y : ℕ) : List ℕ :=
  neighborOffsets.map (sampleAt cur width height x y)

def findMajority (samples : List ℕ) : ℕ :=
  ((List.range 4).foldl
    (fun acc i => if (samples.count i : ℤ) > acc.1 then ((samples.count i : ℤ), i) else acc)
    (-1, 0)).2

def smoothPass (cur : List ℕ) (width height : ℕ) : List ℕ :=
  (List.range cur.length).map fun pos =>
    if pos < width * height then
      findMajority (neighborSamples cur width height (pos % width) (pos / width))
    else 0

def smoothIndices (indices : List ℕ) (width height : ℕ) : ℕ → List ℕ
  | 0 => indices
  | passes + 1 => smoothPass (smoothIndices indices width height passes) width height

/-! ## Color quantizer (quantizeImage with k = 4)

The two Math.random() draws of the k-means++ seeding step are passed in as
explicit rational parameters (r1 scales the pixel count for the first
centroid, r2 to r4 scale the summed squared distances for the remaining
three).  The running minimum initialised to Infinity is modelled by an
Option, none standing for Infinity.
-/

def getDistanceSq (c1 c2 : RGB) : ℚ :=
  (c1.r - c2.r) ^ 2 + (c1.g - c2.g) ^ 2 + (c1.b - c2.b) ^ 2

def getSaturation (r g b : ℚ) : ℚ :=
  let mx := max r (max g b)
  let mn := min r (min g b)
  let d := mx - mn
  if mx = 0 then 0 else d / mx

def getExtremesBonus (r g b : ℚ) : ℚ :=
  let lum := (299 / 1000 * r + 587 / 1000 * g + 114 / 1000 * b) / 255
  if lum < 15 / 100 ∨ lum > 85 / 100 then 1 / 2 else 0

def ltOptQ (d : ℚ) : Option ℚ → Bool
  | none => true
  | some m => decide (d < m)

-- JavaScript Math.round rounds half toward positive infinity.
def jsRound (q : ℚ) : ℤ := ⌊q + 1 / 2⌋

-- Minimum squared distance of a pixel to the already chosen centroids.
def minDist2 (p : RGB) (cents : List RGB) : ℚ :=
  (cents.foldl
    (fun m c => if ltOptQ (getDistanceSq p c) m then some (getDistanceSq p c) else m)
    (none : Option ℚ)).getD 0

-- The weighted pick loop: subtract distances from the target until it drops
-- to zero or below; if the loop falls through, fall back to the last pixel.
def pickAux : List ℚ → ℚ → ℕ
  | [], _ => 0
  | d :: rest, t => if t - d ≤ 0 then 0 else pickAux rest (t - d) + 1

def pickIndex (dists : List ℚ) (target : ℚ) : ℕ :=
  min (pickAux dists target) (dists.length - 1)

def seedStep (data : List RGB) (cents : List RGB) (rand : ℚ) : List RGB :=
  let dists := data.map fun p => minDist2 p cents
  let target := rand * dists.sum
  cents ++ [data.getD (pickIndex dists target) default]

-- Nearest-centroid assignment: strictly smaller distance wins, so the lowest
-- cluster index is kept on ties; k is fixed at 4.
def bestCluster (p : RGB) (cents : List RGB) : ℕ :=
  ((List.range 4).foldl
    (fun acc j =>
      if ltOptQ (getDistanceSq p (cents.getD j default)) acc.1 then
        (some (getDistanceSq p (cents.getD j default)), j)
      else acc)
    ((none : Option ℚ), 0)).2

def assignOf (data : List RGB) (cents : List RGB) : List ℕ :=
  data.map fun p => bestCluster p cents

structure ClusterSum where
  r : ℚ
  g : ℚ
  b : ℚ
  count : ℕ

def sumsFor (data : List RGB) (asg : List ℕ) (j : ℕ) : ClusterSum :=
  ((data.zip asg).filter (fun pa => pa.2 == j)).foldl
    (fun s pa => ⟨s.r + pa.1.r, s.g + pa.1.g, s.b + pa.1.b, s.count + 1⟩)
    ⟨0, 0, 0, 0⟩

def stepCentroids (data : List RGB) (cents : List RGB) (asg : List ℕ) : List RGB :=
  (List.range 4).map fun j =>
    let s := sumsFor data asg j
    if s.count > 0 then
      ⟨(jsRound (s.r / s.count) : ℚ), (jsRound (s.g / s.count) : ℚ),
        (jsRound (s.b / s.count) : ℚ)⟩
    else cents.getD j default

-- Lloyd refinement: up to 15 iterations, stopping early when no centroid
-- moves; the assignment of the last executed iteration is kept.
def lloydLoop (data : List RGB) (cents : List RGB) : ℕ → List ℕ × List RGB
  | 0 => (List.replicate data.length 0, cents)
  | n + 1 =>
    let asg := assignOf data cents
    let cents2 := stepCentroids data cents asg
    if n = 0 ∨ cents2 = cents then (asg, cents2) else lloydLoop data cents2 n

def pixelScore (p : RGB) (cent : RGB) : ℚ :=
  getDistanceSq p cent - getSaturation p.r p.g p.b * 3000 -
    getExtremesBonus p.r p.g p.b * 3000

structure MedoidState where
  medoids : List RGB
  scores : List (Option ℚ)

def medoidFold (cents : List RGB) (st : MedoidState) (pa : RGB × ℕ) : MedoidState :=
  let score := pixelScore pa.1 (cents.getD pa.2 default)
  if ltOptQ score (st.scores.getD pa.2 none) then
    ⟨st.medoids.set pa.2 pa.1, st.scores.set pa.2 (some score)⟩
  else st

def computeMedoids (data : List RGB) (asg : List ℕ) (cents : List RGB) : List RGB :=
  ((data.zip asg).foldl (medoidFold cents) ⟨cents, List.replicate 4 none⟩).medoids

def clusterCounts (asg : List ℕ) : List (ℕ × ℕ) :=
  (List.range 4).map fun j => (j, asg.count j)

-- Array.prototype.sort with comparator (a, b) => b.count - a.count: a stable
-- sort by descending member count.
def sortClusters (l : List (ℕ × ℕ)) : List (ℕ × ℕ) :=
  l.insertionSort fun a b => b.2 ≤ a.2

instance : IsTotal (ℕ × ℕ) (fun a b : ℕ × ℕ => b.2 ≤ a.2) :=
  ⟨fun a b => (le_total a.2 b.2).symm⟩

instance : IsTrans (ℕ × ℕ) (fun a b : ℕ × ℕ => b.2 ≤ a.2) :=
  ⟨fun _ _ _ hab hbc => le_trans hbc hab⟩

def oldToNewArr (sorted : List (ℕ × ℕ)) : List ℕ :=
  sorted.enum.foldl (fun arr p => arr.set p.2.1 p.1) (List.replicate 4 0)

def sortedPaletteOf (sorted : List (ℕ × ℕ)) (medoids : List RGB) : List RGB :=
  sorted.map fun item => medoids.getD item.1 default

structure QuantResult where
  palette : List RGB
  indices : List ℕ

def quantizeImage (data : List RGB) (r1 r2 r3 r4 : ℚ) : QuantResult :=
  let firstIdx := (⌊r1 * (data.length : ℚ)⌋).toNat
  let cents1 : List RGB := [data.getD firstIdx default]
  let cents := seedStep data (seedStep data (seedStep data cents1 r2) r3) r4
  let res := lloydLoop data cents 15
  let asg := res.1
  let medoids := computeMedoids data asg res.2
  let sorted := sortClusters (clusterCounts asg)
  let o2n := oldToNewArr sorted
  ⟨sortedPaletteOf sorted medoids, asg.map fun v => o2n.getD v 0⟩

/-! ## Mesh data model and builder

The builder deduplicates vertices through a map keyed by the string
x.toFixed(3) + comma + y.toFixed(3) + comma + z.toFixed(3).  For a JavaScript
number q, toFixed(3) renders a sign (present exactly when q is negative)
followed by the decimal digits of the integer n nearest to the absolute value
scaled by 1000, the larger n winning ties.  Two such strings are equal exactly
when their sign flags and their integers n agree componentwise, so the key is
modelled by the triple of (sign flag, rounded thousandths) pairs.
-/

structure MeshData where
  vertices : List ℚ
  triangles : List ℕ
deriving DecidableEq

abbrev VKey := (Bool × ℤ) × (Bool × ℤ) × (Bool × ℤ)

def fixKey (q : ℚ) : Bool × ℤ :=
  (decide (q < 0), ⌊|q| * 1000 + 1 / 2⌋)

def vkey (x y z : ℚ) : VKey :=
  (fixKey x, fixKey y, fixKey z)

structure MeshBuilder where
  vertices : List ℚ
  triangles : List ℕ
  vertexMap : List (VKey × ℕ)
deriving DecidableEq

def MeshBuilder.empty : MeshBuilder := ⟨[], [], []⟩

-- Map.get on the insertion-ordered key/value list of the builder.
def findKey (key : VKey) : List (VKey × ℕ) → Option ℕ
  | [] => none
  | e :: rest => if e.1 = key then some e.2 else findKey key rest

def MeshBuilder.addVertex (b : MeshBuilder) (x y z : ℚ) : MeshBuilder × ℕ :=
  let key := vkey x y z
  match findKey key b.vertexMap with
  | some existing => (b, existing)
  | none =>
    let index := b.vertices.length / 3
    ({ vertices := b.vertices ++ [x, y, z]
       triangles := b.triangles
       vertexMap := b.vertexMap ++ [(key, index)] }, index)

def MeshBuilder.addBox (b0 : MeshBuilder) (x y z w h d : ℚ) : MeshBuilder :=
  let r0 := b0.addVertex x y z
  let r1 := r0.1.addVertex (x + w) y z
  let r2 := r1.1.addVertex (x + w) (y + h) z
  let r3 := r2.1.addVertex x (y + h) z
  let r4 := r3.1.addVertex x y (z + d)
  let r5 := r4.1.addVertex (x + w) y (z + d)
  let r6 := r5.1.addVertex (x + w) (y + h) (z + d)
  let r7 := r6.1.addVertex x (y + h) (z + d)
  { r7.1 with triangles := r7.1.triangles ++
      [r0.2, r2.2, r1.2, r0.2, r3.2, r2.2,
       r4.2, r5.2, r6.2, r4.2, r6.2, r7.2,
       r0.2, r1.2, r5.2, r0.2, r5.2, r4.2,
       r2.2, r3.2, r7.2, r2.2, r7.2, r6.2,
       r0.2, r4.2, r7.2, r0.2, r7.2, r3.2,
       r1.2, r2.2, r6.2, r1.2, r6.2, r5.2] }

def MeshBuilder.getData (b : MeshBuilder) : MeshData := ⟨b.vertices, b.triangles⟩

-- Builder states reachable from the empty builder: the coordinate list holds
-- three entries per map entry and the map values are 0, 1, 2, ... in order.
def GoodBuilder (b : MeshBuilder) : Prop :=
  b.vertices.length = 3 * b.vertexMap.length ∧
  b.vertexMap.map Prod.snd = List.range b.vertexMap.length

/-! ## Binary STL serializer

The DataView is modelled by the ordered trace of its typed writes: offsets
never written stay at the zero bytes of the fresh ArrayBuffer.  JavaScript
float32 stores are recorded with their rational argument.
-/

inductive STLWrite where
  | f32 : ℕ → ℚ → STLWrite
  | u16 : ℕ → ℕ → STLWrite
  | u32 : ℕ → ℕ → STLWrite
deriving DecidableEq

def STLWrite.off : STLWrite → ℕ
  | f32 o _ => o
  | u16 o _ => o
  | u32 o _ => o

structure STLBuffer where
  byteLength : ℕ
  writes : List STLWrite
deriving DecidableEq

-- One iteration of the triangle loop: zero normal, three vertices, attribute.
def triRecordWrites (mesh : MeshData) (i offset : ℕ) : List STLWrite :=
  let v1Idx := mesh.triangles.getD i 0 * 3
  let v2Idx := mesh.triangles.getD (i + 1) 0 * 3
  let v3Idx := mesh.triangles.getD (i + 2) 0 * 3
  [.f32 offset 0, .f32 (offset + 4) 0, .f32 (offset + 8) 0,
   .f32 (offset + 12) (mesh.vertices.getD v1Idx 0),
   .f32 (offset + 16) (mesh.vertices.getD (v1Idx + 1) 0),
   .f32 (offset + 20) (mesh.vertices.getD (v1Idx + 2) 0),
   .f32 (offset + 24) (mesh.vertices.getD v2Idx 0),
   .f32 (offset + 28) (mesh.vertices.getD (v2Idx + 1) 0),
   .f32 (offset + 32) (mesh.vertices.getD (v2Idx + 2) 0),
   .f32 (offset + 36) (mesh.vertices.getD v3Idx 0),
   .f32 (offset + 40) (mesh.vertices.getD (v3Idx + 1) 0),
   .f32 (offset + 44) (mesh.vertices.getD (v3Idx + 2) 0),
   .u16 (offset + 48) 0]

def stlLoop (mesh : MeshData) (i offset : ℕ) : List STLWrite :=
  if _h : i < mesh.triangles.length then
    triRecordWrites mesh i offset ++ stlLoop mesh (i + 3) (offset + 50)
  else []
termination_by mesh.triangles.length - i
decreasing_by omega

-- The source computes bufferLength from triangles.length / 3; the division is
-- exact in every call that does not throw (a fractional ArrayBuffer length is
-- a range error), so natural division renders it.
def writeBinarySTL (mesh : MeshData) : STLBuffer :=
  let triangleCount := mesh.triangles.length / 3
  let headerSize := 80
  let countSize := 4
  let triangleSize := 50
  let bufferLength := headerSize + countSize + triangleCount * triangleSize
  { byteLength := bufferLength
    writes := STLWrite.u32 headerSize triangleCount ::
      stlLoop mesh 0 (headerSize + countSize) }

/-! ## Layer mesh generation loops (generateSTLs and generate3MF)

generateSTLs and generate3MF each contain their own textual copy of the
row-run box-emission loop; the two copies are embedded separately, mirroring
the duplication in the source.  Pixel reads are modelled as a function from
the linear row-major position.
-/

def scaleX : ℚ := BOOKMARK_WIDTH_MM / (CANVAS_WIDTH : ℚ)

def scaleY : ℚ := BOOKMARK_HEIGHT_MM / (CANVAS_HEIGHT : ℚ)

def rowStepSTL (indices : ℕ → ℕ) (c y : ℕ) (zStart height : ℚ)
    (st : MeshBuilder × Option ℕ) (x : ℕ) : MeshBuilder × Option ℕ :=
  if indices (y * CANVAS_WIDTH + x) = c then
    match st.2 with
    | none => (st.1, some x)
    | some _ => st
  else
    match st.2 with
    | none => st
    | some startX =>
      (st.1.addBox ((startX : ℚ) * scaleX) (((CANVAS_HEIGHT : ℚ) - 1 - y) * scaleY) zStart
        (((x : ℚ) - startX) * scaleX) (1 * scaleY) height, none)

def scanRowSTL (indices : ℕ → ℕ) (c y : ℕ) (zStart height : ℚ) (b : MeshBuilder) :
    MeshBuilder :=
  let st := (List.range CANVAS_WIDTH).foldl (rowStepSTL indices c y zStart height) (b, none)
  match st.2 with
  | none => st.1
  | some startX =>
    st.1.addBox ((startX : ℚ) * scaleX) (((CANVAS_HEIGHT : ℚ) - 1 - y) * scaleY) zStart
      (((CANVAS_WIDTH : ℚ) - startX) * scaleX) (1 * scaleY) height

def layerMeshSTL (indices : ℕ → ℕ) (settings : BookmarkSettings) (c : ℕ) : MeshData :=
  let zStart := settings.baseHeight
  let height := settings.layerHeights.getD c 0
  let b0 := MeshBuilder.empty
  let b1 := if c = 0 then
      b0.addBox 0 0 0 BOOKMARK_WIDTH_MM BOOKMARK_HEIGHT_MM settings.baseHeight
    else b0
  ((List.range CANVAS_HEIGHT).foldl
    (fun b y => scanRowSTL indices c y zStart height b) b1).getData

def stlName (c : ℕ) : String :=
  if c = 0 then "Color_1_Base.stl" else "Color_" ++ toString (c + 1) ++ ".stl"

def generateSTLs (indices : ℕ → ℕ) (settings : BookmarkSettings) :
    List (String × STLBuffer) :=
  (List.range 4).foldl
    (fun result c =>
      let data := layerMeshSTL indices settings c
      if data.triangles.length > 0 then result ++ [(stlName c, writeBinarySTL data)]
      else result)
    []

def rowStep3MF (indices : ℕ → ℕ) (c y : ℕ) (zStart height : ℚ)
    (st : MeshBuilder × Option ℕ) (x : ℕ) : MeshBuilder × Option ℕ :=
  if indices (y * CANVAS_WIDTH + x) = c then
    match st.2 with
    | none => (st.1, some x)
    | some _ => st
  else
    match st.2 with
    | none => st
    | some startX =>
      (st.1.addBox ((startX : ℚ) * scaleX) (((CANVAS_HEIGHT : ℚ) - 1 - y) * scaleY) zStart
        (((x : ℚ) - startX) * scaleX) (1 * scaleY) height, none)

def scanRow3MF (indices : ℕ → ℕ) (c y : ℕ) (zStart height : ℚ) (b : MeshBuilder) :
    MeshBuilder :=
  let st := (List.range CANVAS_WIDTH).foldl (rowStep3MF indices c y zStart height) (b, none)
  match st.2 with
  | none => st.1
  | some startX =>
    st.1.addBox ((startX : ℚ) * scaleX) (((CANVAS_HEIGHT : ℚ) - 1 - y) * scaleY) zStart
      (((CANVAS_WIDTH : ℚ) - startX) * scaleX) (1 * scaleY) height

def layerMesh3MF (indices : ℕ → ℕ) (settings : BookmarkSettings) (c : ℕ) : MeshData :=
  let zStart := settings.baseHeight
  let height := settings.layerHeights.getD c 0
  let b0 := MeshBuilder.empty
  let b1 := if c = 0 then
      b0.addBox 0 0 0 BOOKMARK_WIDTH_MM BOOKMARK_HEIGHT_MM settings.baseHeight
    else b0
  ((List.range CANVAS_HEIGHT).foldl
    (fun b y => scanRow3MF indices c y zStart height b) b1).getData

/-! ## 3MF packaging (generate3MF and get3DModelXML) -/

def hexOfNat (n : ℕ) : String := (Nat.toDigits 16 n).asString

def padStart2 (s : String) : String :=
  if s.length < 2 then ("".pushn '0' (2 - s.length)) ++ s else s

-- Math.round(channel).toString(16).padStart(2, zero).toUpperCase()
def hexByte (q : ℚ) : String :=
  let n := jsRound q
  let s := if n < 0 then "-" ++ hexOfNat (-n).toNat else hexOfNat n.toNat
  (padStart2 s).toUpper

def rgbToHex (c : RGB) : String :=
  "#" ++ hexByte c.r ++ hexByte c.g ++ hexByte c.b

structure MeshObject where
  id : ℕ
  name : String
  data : MeshData
  paletteIdx : ℕ

-- The two reserved resource ids fixed inside get3DModelXML.
def containerId : ℕ := 100

def materialId : ℕ := 200

def meshName3MF (c : ℕ) (palette : List RGB) : String :=
  let hex := (rgbToHex (palette.getD c default)).drop 1
  if c = 0 then "Layer_1_Base_" ++ hex else "Layer_" ++ toString (c + 1) ++ "_" ++ hex

def meshObjects3MF (indices : ℕ → ℕ) (settings : BookmarkSettings)
    (palette : List RGB) : List MeshObject :=
  (List.range 4).foldl
    (fun objs c =>
      let data := layerMesh3MF indices settings c
      if data.vertices.length > 0 then
        objs ++ [{ id := c + 1, name := meshName3MF c palette, data := data,
                   paletteIdx := c }]
      else objs)
    []

-- The numeric resource ids declared by the generated 3D model XML document,
-- in document order: the basematerials resource, one object element per mesh
-- object, then the assembly object holding the component references.
def modelResourceIds (meshes : List MeshObject) : List ℕ :=
  materialId :: meshes.map (fun m => m.id) ++ [containerId]

/-! ## General list helpers -/

theorem list_getD_map_range {α : Type} (n : ℕ) (f : ℕ → α) (i : ℕ) (d : α) (h : i < n) :
    ((List.range n).map f).getD i d = f i := by
  rw [List.getD_eq_getElem?_getD, List.getElem?_map, List.getElem?_range h]
  rfl

theorem list_getD_lt (l : List ℕ) (n d c : ℕ) (hl : ∀ v ∈ l, v < c) (hd : d < c) :
    l.getD n d < c := by
  rcases Nat.lt_or_ge n l.length with h | h
  · rw [List.getD_eq_getElem l d h]
    exact hl _ (List.getElem_mem _)
  · rw [List.getD_eq_default l d h]
    exact hd

/-! ## Closed form of the STL triangle loop -/

theorem stlLoop_closed (mesh : MeshData) :
    ∀ (k j : ℕ), mesh.triangles.length = 3 * (j + k) →
      stlLoop mesh (3 * j) (84 + 50 * j) =
        (List.range k).flatMap
          (fun t => triRecordWrites mesh (3 * (j + t)) (84 + 50 * (j + t))) := by
  intro k
  induction k with
  | zero =>
    intro j hlen
    rw [stlLoop, dif_neg (by omega)]
    simp
  | succ k ih =>
    intro j hlen
    rw [stlLoop, dif_pos (by omega)]
    have h1 : 3 * j + 3 = 3 * (j + 1) := by ring
    have h2 : 84 + 50 * j + 50 = 84 + 50 * (j + 1) := by ring
    rw [h1, h2, ih (j + 1) (by omega)]
    rw [List.range_succ_eq_map]
    rw [List.flatMap_cons, List.flatMap_map]
    have h3 : (fun t => triRecordWrites mesh (3 * (j + 1 + t)) (84 + 50 * (j + 1 + t))) =
        (fun a => triRecordWrites mesh (3 * (j + (a + 1))) (84 + 50 * (j + (a + 1)))) := by
      funext t
      have h4 : j + 1 + t = j + (t + 1) := by ring
      rw [h4]
    rw [h3]
    simp [Nat.add_zero]

/-- C1: writeBinarySTL returns a buffer of exactly 80 + 4 + 50 * T bytes,
where T is the triangle count: no write touches the 80 header bytes, offset 80
holds T as a little-endian uint32, and each 50-byte record at offset
84 + 50 * j holds three float32 zeros, then the nine float32 coordinates of
the three vertices of triangle j in emission order, then a uint16 attribute
equal to 0. -/
theorem writeBinarySTL_layout (mesh : MeshData) (T : ℕ)
    (hT : mesh.triangles.length = 3 * T) :
    (writeBinarySTL mesh).byteLength = 80 + 4 + 50 * T ∧
    (writeBinarySTL mesh).writes =
      STLWrite.u32 80 T ::
        (List.range T).flatMap (fun j =>
          [STLWrite.f32 (84 + 50 * j) 0,
           STLWrite.f32 (84 + 50 * j + 4) 0,
           STLWrite.f32 (84 + 50 * j + 8) 0,
           STLWrite.f32 (84 + 50 * j + 12)
             (mesh.vertices.getD (mesh.triangles.getD (3 * j) 0 * 3) 0),
           STLWrite.f32 (84 + 50 * j + 16)
             (mesh.vertices.getD (mesh.triangles.getD (3 * j) 0 * 3 + 1) 0),
           STLWrite.f32 (84 + 50 * j + 20)
             (mesh.vertices.getD (mesh.triangles.getD (3 * j) 0 * 3 + 2) 0),
           STLWrite.f32 (84 + 50 * j + 24)
             (mesh.vertices.getD (mesh.triangles.getD (3 * j + 1) 0 * 3) 0),
           STLWrite.f32 (84 + 50 * j + 28)
             (mesh.vertices.getD (mesh.triangles.getD (3 * j + 1) 0 * 3 + 1) 0),
           STLWrite.f32 (84 + 50 * j + 32)
             (mesh.vertices.getD (mesh.triangles.getD (3 * j + 1) 0 * 3 + 2) 0),
           STLWrite.f32 (84 + 50 * j + 36)
             (mesh.vertices.getD (mesh.triangles.getD (3 * j + 2) 0 * 3) 0),
           STLWrite.f32 (84 + 50 * j + 40)
             (mesh.vertices.getD (mesh.triangles.getD (3 * j + 2) 0 * 3 + 1) 0),
           STLWrite.f32 (84 + 50 * j + 44)
             (mesh.vertices.getD (mesh.triangles.getD (3 * j + 2) 0 * 3 + 2) 0),
           STLWrite.u16 (84 + 50 * j + 48) 0]) ∧
    ∀ wr ∈ (writeBinarySTL mesh).writes, 80 ≤ wr.off := by
  have hdiv : mesh.triangles.length / 3 = T := by omega
  have hwrites : (writeBinarySTL mesh).writes =
      STLWrite.u32 80 T ::
        (List.range T).flatMap
          (fun t => triRecordWrites mesh (3 * t) (84 + 50 * t)) := by
    show STLWrite.u32 80 (mesh.triangles.length / 3) :: stlLoop mesh 0 84 = _
    rw [hdiv]
    have hc := stlLoop_closed mesh T 0 (by omega)
    simp only [Nat.mul_zero, Nat.add_zero, Nat.zero_add] at hc
    rw [hc]
  refine ⟨?_, ?_, ?_⟩
  · show 80 + 4 + mesh.triangles.length / 3 * 50 = 80 + 4 + 50 * T
    omega
  · rw [hwrites]; rfl
  · intro wr hwr
    rw [hwrites] at hwr
    rcases List.mem_cons.mp hwr with rfl | hwr
    · simp [STLWrite.off]
    · obtain ⟨j, -, hin⟩ := List.mem_flatMap.mp hwr
      simp only [triRecordWrites, List.mem_cons, List.not_mem_nil, or_false] at hin
      rcases hin with rfl | rfl | rfl | rfl | rfl | rfl | rfl | rfl | rfl | rfl | rfl | rfl | rfl <;>
        simp only [STLWrite.off] <;> omega

/-- Witness for C1 on a one-triangle mesh. -/
theorem writeBinarySTL_layout_witness :
    (writeBinarySTL ⟨[0, 0, 0, 1, 0, 0, 0, 1, 0], [0, 1, 2]⟩).byteLength = 80 + 4 + 50 * 1 ∧
    ∀ wr ∈ (writeBinarySTL ⟨[0, 0, 0, 1, 0, 0, 0, 1, 0], [0, 1, 2]⟩).writes, 80 ≤ wr.off :=
  ⟨(writeBinarySTL_layout ⟨[0, 0, 0, 1, 0, 0, 0, 1, 0], [0, 1, 2]⟩ 1 (by decide)).1,
   (writeBinarySTL_layout ⟨[0, 0, 0, 1, 0, 0, 0, 1, 0], [0, 1, 2]⟩ 1 (by decide)).2.2⟩

/-! ## Vertex deduplication of the mesh builder (C3) -/

theorem fixKey_small (q : ℚ) (h0 : 0 ≤ q) (h1 : q * 1000 + 1 / 2 < 1) :
    fixKey q = (false, 0) := by
  unfold fixKey
  rw [decide_eq_false (not_lt.mpr h0), abs_of_nonneg h0]
  have hz : ⌊q * 1000 + 1 / 2⌋ = 0 := by
    rw [Int.floor_eq_zero_iff]
    constructor
    · positivity
    · exact h1
  rw [hz]

theorem findKey_eq_some (k : VKey) (l : List (VKey × ℕ)) (v : ℕ)
    (h : findKey k l = some v) : (k, v) ∈ l := by
  induction l with
  | nil => simp [findKey] at h
  | cons e rest ih =>
    simp only [findKey] at h
    by_cases he : e.1 = k
    · rw [if_pos he] at h
      injection h with h
      have : e = (k, v) := by
        cases e
        simp only [Prod.mk.injEq]
        exact ⟨he, h⟩
      rw [← this]
      exact List.mem_cons_self e rest
    · rw [if_neg he] at h
      exact List.mem_cons_of_mem _ (ih h)

theorem findKey_append (k : VKey) (l : List (VKey × ℕ)) (e : VKey × ℕ) :
    findKey k (l ++ [e]) =
      match findKey k l with
      | some v => some v
      | none => if e.1 = k then some e.2 else none := by
  induction l with
  | nil => simp [findKey]
  | cons a rest ih =>
    by_cases ha : a.1 = k
    · simp [findKey, ha]
    · simp only [List.cons_append, findKey, if_neg ha]
      exact ih

theorem goodBuilder_value_lt (b : MeshBuilder) (hb : GoodBuilder b) (e : VKey × ℕ)
    (he : e ∈ b.vertexMap) : e.2 < b.vertexMap.length := by
  have h2 : e.2 ∈ b.vertexMap.map Prod.snd := List.mem_map_of_mem Prod.snd he
  rw [hb.2] at h2
  exact List.mem_range.mp h2

theorem goodBuilder_snd_inj (b : MeshBuilder) (hb : GoodBuilder b) (e e' : VKey × ℕ)
    (he : e ∈ b.vertexMap) (he' : e' ∈ b.vertexMap) (h : e.2 = e'.2) : e = e' := by
  have hnd : (b.vertexMap.map Prod.snd).Nodup := by
    rw [hb.2]
    exact List.nodup_range _
  exact List.inj_on_of_nodup_map hnd he he' h

theorem goodBuilder_addVertex (b : MeshBuilder) (x y z : ℚ) (hb : GoodBuilder b) :
    GoodBuilder (b.addVertex x y z).1 := by
  obtain ⟨hlen, hmap⟩ := hb
  cases h : findKey (vkey x y z) b.vertexMap with
  | some v =>
    simp only [MeshBuilder.addVertex, h]
    exact ⟨hlen, hmap⟩
  | none =>
    have hdiv : b.vertices.length / 3 = b.vertexMap.length := by omega
    simp only [MeshBuilder.addVertex, h]
    constructor
    · simp only [List.length_append, List.length_cons, List.length_nil]
      omega
    · simp only [List.map_append, List.map_cons, List.map_nil, List.length_append,
        List.length_cons, List.length_nil, hmap, hdiv]
      exact (List.range_succ b.vertexMap.length).symm

/-- C3 counterexample: two addVertex calls with the distinct coordinate
triples (1/10000, 0, 0) and (2/10000, 0, 0) return the same vertex index,
because both x coordinates render as 0.000 under toFixed(3).  Deduplication
is therefore not by exact coordinate match. -/
theorem addVertex_not_exact_dedup :
    ((MeshBuilder.empty.addVertex (1 / 10000) 0 0).1.addVertex (2 / 10000) 0 0).2 =
      (MeshBuilder.empty.addVertex (1 / 10000) 0 0).2 ∧
    (1 / 10000 : ℚ) ≠ 2 / 10000 := by
  have h1 : fixKey (1 / 10000) = (false, 0) := fixKey_small _ (by norm_num) (by norm_num)
  have h2 : fixKey (2 / 10000) = (false, 0) := fixKey_small _ (by norm_num) (by norm_num)
  have hv : vkey (2 / 10000) 0 0 = vkey (1 / 10000) 0 0 := by
    unfold vkey
    rw [h1, h2]
  have e1 : MeshBuilder.empty.addVertex (1 / 10000) 0 0 =
      ({ vertices := [1 / 10000, 0, 0], triangles := []
         vertexMap := [(vkey (1 / 10000) 0 0, 0)] }, 0) := rfl
  constructor
  · rw [e1]
    simp only [MeshBuilder.addVertex, hv, findKey, if_pos]
  · norm_num

/-- C3 amended: from any reachable builder state, the index returned by a
second addVertex call equals the index just returned for a first call exactly
when the two coordinate triples agree componentwise under the toFixed(3)
fixed-precision key (sign flag and rounded thousandths), not exactly when the
triples are equal. -/
theorem addVertex_key_iff (b : MeshBuilder) (x1 y1 z1 x2 y2 z2 : ℚ) (hb : GoodBuilder b) :
    ((b.addVertex x1 y1 z1).1.addVertex x2 y2 z2).2 = (b.addVertex x1 y1 z1).2 ↔
      vkey x2 y2 z2 = vkey x1 y1 z1 := by
  obtain ⟨hlen, hmap⟩ := hb
  have hgb : GoodBuilder b := ⟨hlen, hmap⟩
  have hdiv : b.vertices.length / 3 = b.vertexMap.length := by omega
  cases h1 : findKey (vkey x1 y1 z1) b.vertexMap with
  | some i =>
    have hmem1 : (vkey x1 y1 z1, i) ∈ b.vertexMap := findKey_eq_some _ _ _ h1
    have hi : i < b.vertexMap.length := goodBuilder_value_lt b hgb _ hmem1
    simp only [MeshBuilder.addVertex, h1]
    cases h2 : findKey (vkey x2 y2 z2) b.vertexMap with
    | some v =>
      simp only [h2]
      constructor
      · intro hv
        have hmem2 : (vkey x2 y2 z2, v) ∈ b.vertexMap := findKey_eq_some _ _ _ h2
        have heq : ((vkey x2 y2 z2, v) : VKey × ℕ) = (vkey x1 y1 z1, i) :=
          goodBuilder_snd_inj b hgb _ _ hmem2 hmem1 hv
        exact congrArg Prod.fst heq
      · intro hk
        rw [hk, h1] at h2
        injection h2 with h2
        exact h2.symm
    | none =>
      simp only [h2]
      constructor
      · intro hv
        exfalso
        omega
      · intro hk
        exfalso
        rw [hk, h1] at h2
        exact Option.noConfusion h2
  | none =>
    simp only [MeshBuilder.addVertex, h1]
    have happ := findKey_append (vkey x2 y2 z2) b.vertexMap
      (vkey x1 y1 z1, b.vertices.length / 3)
    by_cases hk : vkey x2 y2 z2 = vkey x1 y1 z1
    · rw [hk] at happ
      rw [h1] at happ
      simp only [if_pos] at happ
      simp only [hk, happ]
    · have happ2 : findKey (vkey x2 y2 z2)
          (b.vertexMap ++ [(vkey x1 y1 z1, b.vertices.length / 3)]) =
          findKey (vkey x2 y2 z2) b.vertexMap := by
        rw [happ]
        cases h2 : findKey (vkey x2 y2 z2) b.vertexMap with
        | some v => rfl
        | none =>
          have : ¬ ((vkey x1 y1 z1, b.vertices.length / 3) : VKey × ℕ).1 =
              vkey x2 y2 z2 := fun hcon => hk hcon.symm
          simp only [if_neg this]
      cases h2 : findKey (vkey x2 y2 z2) b.vertexMap with
      | some v =>
        have hmem2 : (vkey x2 y2 z2, v) ∈ b.vertexMap := findKey_eq_some _ _ _ h2
        have hv : v < b.vertexMap.length := goodBuilder_value_lt b hgb _ hmem2
        simp only [happ2, h2]
        constructor
        · intro hvv
          exfalso
          omega
        · intro hkk
          exact absurd hkk hk
      | none =>
        simp only [happ2, h2]
        constructor
        · intro hvv
          exfalso
          simp only [List.length_append, List.length_cons, List.length_nil] at hvv
          omega
        · intro hkk
          exact absurd hkk hk

/-- Witness for the amended C3 theorem on the empty builder. -/
theorem addVertex_key_iff_witness :
    ((MeshBuilder.empty.addVertex 1 2 3).1.addVertex 4 5 6).2 =
      (MeshBuilder.empty.addVertex 1 2 3).2 ↔ vkey 4 5 6 = vkey 1 2 3 :=
  addVertex_key_iff MeshBuilder.empty 1 2 3 4 5 6 ⟨rfl, rfl⟩

/-! ## Majority selection of the smoother -/


theorem findMajority_spec (samples : List ℕ) :
    findMajority samples < 4 ∧
      (∀ i < 4, samples.count i ≤ samples.count (findMajority samples)) ∧
      (∀ u < findMajority samples,
        samples.count u < samples.count (findMajority samples)) := by
  have hr : List.range 4 = [0, 1, 2, 3] := by decide
  unfold findMajority
  rw [hr]
  simp only [List.foldl_cons, List.foldl_nil]
  split_ifs <;> dsimp only at * <;>
    exact ⟨by omega, fun i hi => by interval_cases i <;> omega,
      fun u hu => by interval_cases u <;> omega⟩

theorem neighborSamples_lt_four (cur : List ℕ) (w h x y : ℕ) (hvals : ∀ v ∈ cur, v < 4) :
    ∀ s ∈ neighborSamples cur w h x y, s < 4 := by
  intro s hs
  simp only [neighborSamples, List.mem_map] at hs
  obtain ⟨o, -, rfl⟩ := hs
  unfold sampleAt
  exact list_getD_lt _ _ _ _ hvals (by omega)

/-- C2: one pass of the smoother replaces every pixel (x, y) with the index
value occurring most often among the 9 border-clamped samples of its 3x3
neighborhood, ties resolved to the lowest index value; each pass consumes the
previous pass output, and 0 passes return the input unchanged. -/
theorem smoothIndices_majority (m : List ℕ) (w h : ℕ) :
    smoothIndices m w h 0 = m ∧
    (∀ p, smoothIndices m w h (p + 1) = smoothPass (smoothIndices m w h p) w h) ∧
    (∀ cur : List ℕ, cur.length = w * h → (∀ v ∈ cur, v < 4) →
      ∀ x y, x < w → y < h →
        (smoothPass cur w h).getD (y * w + x) 0 < 4 ∧
        (∀ v : ℕ, (neighborSamples cur w h x y).count v ≤
          (neighborSamples cur w h x y).count ((smoothPass cur w h).getD (y * w + x) 0)) ∧
        (∀ u < (smoothPass cur w h).getD (y * w + x) 0,
          (neighborSamples cur w h x y).count u <
            (neighborSamples cur w h x y).count ((smoothPass cur w h).getD (y * w + x) 0))) := by
  refine ⟨rfl, fun p => rfl, ?_⟩
  intro cur hlen hvals x y hx hy
  have hw : 0 < w := Nat.lt_of_le_of_lt (Nat.zero_le x) hx
  have hpos : y * w + x < w * h := by
    have h1 : y * w + x < y * w + w := Nat.add_lt_add_left hx _
    have h2 : y * w + w = (y + 1) * w := by ring
    have h3 : (y + 1) * w ≤ h * w := Nat.mul_le_mul_right w hy
    calc y * w + x < (y + 1) * w := h2 ▸ h1
      _ ≤ h * w := h3
      _ = w * h := Nat.mul_comm h w
  have hmod : (y * w + x) % w = x := by
    rw [Nat.add_comm, Nat.add_mul_mod_self_right]
    exact Nat.mod_eq_of_lt hx
  have hdiv : (y * w + x) / w = y := by
    rw [Nat.add_comm, Nat.add_mul_div_right _ _ hw, Nat.div_eq_of_lt hx]
    simp
  have hget : (smoothPass cur w h).getD (y * w + x) 0 =
      findMajority (neighborSamples cur w h x y) := by
    unfold smoothPass
    rw [list_getD_map_range _ _ _ _ (by rw [hlen]; exact hpos)]
    rw [if_pos hpos, hmod, hdiv]
  rw [hget]
  obtain ⟨h4, hle, hlt⟩ := findMajority_spec (neighborSamples cur w h x y)
  refine ⟨h4, ?_, hlt⟩
  intro v
  rcases Nat.lt_or_ge v 4 with hv | hv
  · exact hle v hv
  · have : (neighborSamples cur w h x y).count v = 0 := by
      rw [List.count_eq_zero]
      intro hmem
      exact absurd (neighborSamples_lt_four cur w h x y hvals v hmem) (by omega)
    omega

/-- Witness for C2 at a concrete 1x1 index map. -/
theorem smoothIndices_majority_witness :
    (smoothPass [2] 1 1).getD 0 0 < 4 ∧
      (∀ v : ℕ, (neighborSamples [2] 1 1 0 0).count v ≤
        (neighborSamples [2] 1 1 0 0).count ((smoothPass [2] 1 1).getD 0 0)) ∧
      (∀ u < (smoothPass [2] 1 1).getD 0 0,
        (neighborSamples [2] 1 1 0 0).count u <
          (neighborSamples [2] 1 1 0 0).count ((smoothPass [2] 1 1).getD 0 0)) :=
  (smoothIndices_majority [2] 1 1).2.2 [2] (by decide) (by decide) 0 0 (by decide) (by decide)

/-! ## C10: smoothing passes compose additively -/

/-- C10: smoothing composes additively in the pass count: running the smoother
for N passes and then for M more passes on the result is the same as running
it once for N + M passes.  (Proved for every index map, width and height, so
in particular for maps with values below 4 and positive dimensions.) -/
theorem smoothIndices_add (m : List ℕ) (w h N M : ℕ) :
    smoothIndices (smoothIndices m w h N) w h M = smoothIndices m w h (N + M) := by
  induction M with
  | zero => rfl
  | succ M ih => rw [Nat.add_succ]; simp only [smoothIndices, ih]; rfl

/-! ## Quantizer theorems (C4, C5) -/

theorem bestCluster_lt_four (p : RGB) (cents : List RGB) : bestCluster p cents < 4 := by
  have key : ∀ (l : List ℕ) (acc : Option ℚ × ℕ), (∀ j ∈ l, j < 4) → acc.2 < 4 →
      (l.foldl
        (fun acc j =>
          if ltOptQ (getDistanceSq p (cents.getD j default)) acc.1 then
            (some (getDistanceSq p (cents.getD j default)), j)
          else acc) acc).2 < 4 := by
    intro l
    induction l with
    | nil => intro acc _ h; exact h
    | cons a rest ih =>
      intro acc hl hacc
      simp only [List.foldl_cons]
      apply ih
      · intro j hj
        exact hl j (List.mem_cons_of_mem _ hj)
      · split
        · exact hl a (List.mem_cons_self _ _)
        · exact hacc
  exact key (List.range 4) (none, 0) (fun j hj => List.mem_range.mp hj) (by norm_num)

theorem lloydLoop_asg_spec (data : List RGB) :
    ∀ (n : ℕ) (cents : List RGB),
      (lloydLoop data cents n).1.length = data.length ∧
      ∀ v ∈ (lloydLoop data cents n).1, v < 4 := by
  intro n
  induction n with
  | zero =>
    intro cents
    constructor
    · simp [lloydLoop]
    · intro v hv
      simp only [lloydLoop] at hv
      rw [List.eq_of_mem_replicate hv]
      norm_num
  | succ n ih =>
    intro cents
    simp only [lloydLoop]
    split
    · constructor
      · simp [assignOf]
      · intro v hv
        simp only [assignOf, List.mem_map] at hv
        obtain ⟨pp, -, rfl⟩ := hv
        exact bestCluster_lt_four pp cents
    · exact ih _

theorem getD_set_self (l : List ℕ) (i v : ℕ) (h : i < l.length) :
    (l.set i v).getD i 0 = v := by
  rw [List.getD_eq_getElem?_getD, List.getElem?_set_self h]
  rfl

theorem getD_set_other (l : List ℕ) (i j v : ℕ) (h : i ≠ j) :
    (l.set i v).getD j 0 = l.getD j 0 := by
  rw [List.getD_eq_getElem?_getD, List.getElem?_set_ne h, List.getD_eq_getElem?_getD]

theorem list_length_eq_four {α : Type} {l : List α} (h : l.length = 4) :
    ∃ a b c d, l = [a, b, c, d] := by
  cases l with
  | nil => simp at h
  | cons a rest =>
    have h3 : rest.length = 3 := by simpa using h
    obtain ⟨b, c, d, rfl⟩ := List.length_eq_three.mp h3
    exact ⟨a, b, c, d, rfl⟩

theorem oldToNewArr_lt_four (sorted : List (ℕ × ℕ)) (hlen : sorted.length ≤ 4) :
    ∀ v ∈ oldToNewArr sorted, v < 4 := by
  unfold oldToNewArr
  have key : ∀ (ps : List (ℕ × ℕ × ℕ)) (arr : List ℕ),
      (∀ p ∈ ps, p.1 < 4) → (∀ v ∈ arr, v < 4) →
      ∀ v ∈ ps.foldl (fun arr p => arr.set p.2.1 p.1) arr, v < 4 := by
    intro ps
    induction ps with
    | nil => intro arr _ harr; exact harr
    | cons q rest ih =>
      intro arr hp harr
      simp only [List.foldl_cons]
      apply ih
      · intro p hp2
        exact hp p (List.mem_cons_of_mem _ hp2)
      · intro v hv
        rcases List.mem_or_eq_of_mem_set hv with h | h
        · exact harr v h
        · rw [h]
          exact hp q (List.mem_cons_self _ _)
  apply key
  · intro p hp
    rw [List.enum_eq_zip_range] at hp
    rcases p with ⟨n, item⟩
    have hn : n ∈ List.range sorted.length := (List.of_mem_zip hp).1
    have := List.mem_range.mp hn
    omega
  · intro v hv
    rw [List.eq_of_mem_replicate hv]
    norm_num

theorem sortClusters_perm (l : List (ℕ × ℕ)) : List.Perm (sortClusters l) l :=
  List.perm_insertionSort _ l

theorem sortClusters_sorted (l : List (ℕ × ℕ)) :
    List.Sorted (fun a b : ℕ × ℕ => b.2 ≤ a.2) (sortClusters l) :=
  List.sorted_insertionSort _ l

theorem count_map_iff {f : ℕ → ℕ} {l : List ℕ} {n m : ℕ}
    (h : ∀ a ∈ l, f a = n ↔ a = m) : (l.map f).count n = l.count m := by
  induction l with
  | nil => rfl
  | cons a rest ih =>
    simp only [List.map_cons, List.count_cons]
    rw [ih (fun b hb => h b (List.mem_cons_of_mem _ hb))]
    have ha := h a (List.mem_cons_self _ _)
    by_cases hc : a = m
    · subst hc
      have hfa : f a = n := ha.mpr rfl
      simp [hfa]
    · have hfa : ¬ f a = n := fun hh => hc (ha.mp hh)
      simp [hc, hfa]

/-- C4: for every input raster (pixel list) and any random draws, quantizeImage
returns an index map with exactly one entry per input pixel, every entry in
[0,4), and a palette of exactly 4 colors. -/
theorem quantizeImage_shape (data : List RGB) (r1 r2 r3 r4 : ℚ) :
    (quantizeImage data r1 r2 r3 r4).indices.length = data.length ∧
    (∀ v ∈ (quantizeImage data r1 r2 r3 r4).indices, v < 4) ∧
    (quantizeImage data r1 r2 r3 r4).palette.length = 4 := by
  set cents0 := seedStep data (seedStep data (seedStep data
    [data.getD (⌊r1 * (data.length : ℚ)⌋).toNat default] r2) r3) r4 with hcents0
  set asg := (lloydLoop data cents0 15).1 with hasgdef
  set S := sortClusters (clusterCounts asg) with hSdef
  have hind : (quantizeImage data r1 r2 r3 r4).indices =
      asg.map fun v => (oldToNewArr S).getD v 0 := rfl
  have hpal : (quantizeImage data r1 r2 r3 r4).palette =
      sortedPaletteOf S (computeMedoids data asg (lloydLoop data cents0 15).2) := rfl
  have hS4 : S.length = 4 := by
    rw [(sortClusters_perm _).length_eq]
    simp [clusterCounts]
  refine ⟨?_, ?_, ?_⟩
  · rw [hind, List.length_map]
    exact (lloydLoop_asg_spec data 15 cents0).1
  · intro v hv
    rw [hind] at hv
    obtain ⟨a, -, rfl⟩ := List.mem_map.mp hv
    exact list_getD_lt _ _ _ _ (oldToNewArr_lt_four S (by omega)) (by norm_num)
  · rw [hpal]
    unfold sortedPaletteOf
    rw [List.length_map]
    exact hS4

/-- Witness for C4 on a one-pixel raster. -/
theorem quantizeImage_shape_witness :
    (quantizeImage [⟨7, 7, 7⟩] 0 0 0 0).indices.length = 1 ∧
    (∀ v ∈ (quantizeImage [⟨7, 7, 7⟩] 0 0 0 0).indices, v < 4) ∧
    (quantizeImage [⟨7, 7, 7⟩] 0 0 0 0).palette.length = 4 :=
  quantizeImage_shape [⟨7, 7, 7⟩] 0 0 0 0

/-- C5: the palette returned by quantizeImage is ordered by descending cluster
member count: in the final index map, slot 0 occurs at least as often as
slot 1, slot 1 at least as often as slot 2, and slot 2 at least as often as
slot 3. -/
theorem quantizeImage_palette_sorted (data : List RGB) (r1 r2 r3 r4 : ℚ) :
    (quantizeImage data r1 r2 r3 r4).indices.count 1 ≤
      (quantizeImage data r1 r2 r3 r4).indices.count 0 ∧
    (quantizeImage data r1 r2 r3 r4).indices.count 2 ≤
      (quantizeImage data r1 r2 r3 r4).indices.count 1 ∧
    (quantizeImage data r1 r2 r3 r4).indices.count 3 ≤
      (quantizeImage data r1 r2 r3 r4).indices.count 2 := by
  set cents0 := seedStep data (seedStep data (seedStep data
    [data.getD (⌊r1 * (data.length : ℚ)⌋).toNat default] r2) r3) r4 with hcents0
  set asg := (lloydLoop data cents0 15).1 with hasgdef
  have hval : ∀ v ∈ asg, v < 4 := (lloydLoop_asg_spec data 15 cents0).2
  set S := sortClusters (clusterCounts asg) with hSdef
  have hind : (quantizeImage data r1 r2 r3 r4).indices =
      asg.map fun v => (oldToNewArr S).getD v 0 := rfl
  have hperm : List.Perm S (clusterCounts asg) := sortClusters_perm _
  have hlen4 : S.length = 4 := by
    rw [hperm.length_eq]
    simp [clusterCounts]
  have hsorted : List.Sorted (fun a b : ℕ × ℕ => b.2 ≤ a.2) S := sortClusters_sorted _
  have hfstperm : List.Perm (S.map Prod.fst) [0, 1, 2, 3] := by
    have h1 := hperm.map Prod.fst
    have h2 : (clusterCounts asg).map Prod.fst = [0, 1, 2, 3] := by
      unfold clusterCounts
      rw [List.map_map]
      have hcomp : (Prod.fst ∘ fun j : ℕ => (j, asg.count j)) = fun j : ℕ => j := by
        funext j
        rfl
      rw [hcomp, List.map_id']
      decide
    rwa [h2] at h1
  have hnd : (S.map Prod.fst).Nodup := hfstperm.nodup_iff.mpr (by decide)
  have hmemcc : ∀ e ∈ S, e.2 = asg.count e.1 ∧ e.1 < 4 := by
    intro e he
    have h3 : e ∈ clusterCounts asg := hperm.mem_iff.mp he
    simp only [clusterCounts, List.mem_map, List.mem_range] at h3
    obtain ⟨j, hj, rfl⟩ := h3
    exact ⟨rfl, hj⟩
  obtain ⟨s0, s1, s2, s3, hSeq⟩ := list_length_eq_four hlen4
  rw [hSeq] at hnd
  simp only [List.map_cons, List.map_nil, List.nodup_cons, List.mem_cons,
    List.mem_singleton, List.not_mem_nil, or_false, not_or] at hnd
  obtain ⟨⟨h01, h02, h03⟩, ⟨h12, h13⟩, h23, -⟩ := hnd
  have hm0 := hmemcc s0 (by rw [hSeq]; simp)
  have hm1 := hmemcc s1 (by rw [hSeq]; simp)
  have hm2 := hmemcc s2 (by rw [hSeq]; simp)
  have hm3 := hmemcc s3 (by rw [hSeq]; simp)
  have ho2n : oldToNewArr S =
      ((((List.replicate 4 0).set s0.1 0).set s1.1 1).set s2.1 2).set s3.1 3 := by
    rw [hSeq]
    rfl
  have hf0 : (oldToNewArr S).getD s0.1 0 = 0 := by
    rw [ho2n, getD_set_other _ _ _ _ (Ne.symm h03), getD_set_other _ _ _ _ (Ne.symm h02),
      getD_set_other _ _ _ _ (Ne.symm h01), getD_set_self _ _ _ (by simpa using hm0.2)]
  have hf1 : (oldToNewArr S).getD s1.1 0 = 1 := by
    rw [ho2n, getD_set_other _ _ _ _ (Ne.symm h13), getD_set_other _ _ _ _ (Ne.symm h12),
      getD_set_self _ _ _ (by simpa using hm1.2)]
  have hf2 : (oldToNewArr S).getD s2.1 0 = 2 := by
    rw [ho2n, getD_set_other _ _ _ _ (Ne.symm h23),
      getD_set_self _ _ _ (by simpa using hm2.2)]
  have hf3 : (oldToNewArr S).getD s3.1 0 = 3 := by
    rw [ho2n, getD_set_self _ _ _ (by simpa using hm3.2)]
  have hcover : ∀ v, v < 4 → v = s0.1 ∨ v = s1.1 ∨ v = s2.1 ∨ v = s3.1 := by
    intro v hv
    have hvm : v ∈ S.map Prod.fst := hfstperm.mem_iff.mpr (by interval_cases v <;> simp)
    rw [hSeq] at hvm
    simpa using hvm
  have hc0 : (asg.map fun v => (oldToNewArr S).getD v 0).count 0 = asg.count s0.1 := by
    apply count_map_iff
    intro a ha
    constructor
    · intro hfa
      rcases hcover a (hval a ha) with h | h | h | h
      · exact h
      · rw [h, hf1] at hfa; omega
      · rw [h, hf2] at hfa; omega
      · rw [h, hf3] at hfa; omega
    · intro h
      rw [h]
      exact hf0
  have hc1 : (asg.map fun v => (oldToNewArr S).getD v 0).count 1 = asg.count s1.1 := by
    apply count_map_iff
    intro a ha
    constructor
    · intro hfa
      rcases hcover a (hval a ha) with h | h | h | h
      · rw [h, hf0] at hfa; omega
      · exact h
      · rw [h, hf2] at hfa; omega
      · rw [h, hf3] at hfa; omega
    · intro h
      rw [h]
      exact hf1
  have hc2 : (asg.map fun v => (oldToNewArr S).getD v 0).count 2 = asg.count s2.1 := by
    apply count_map_iff
    intro a ha
    constructor
    · intro hfa
      rcases hcover a (hval a ha) with h | h | h | h
      · rw [h, hf0] at hfa; omega
      · rw [h, hf1] at hfa; omega
      · exact h
      · rw [h, hf3] at hfa; omega
    · intro h
      rw [h]
      exact hf2
  have hc3 : (asg.map fun v => (oldToNewArr S).getD v 0).count 3 = asg.count s3.1 := by
    apply count_map_iff
    intro a ha
    constructor
    · intro hfa
      rcases hcover a (hval a ha) with h | h | h | h
      · rw [h, hf0] at hfa; omega
      · rw [h, hf1] at hfa; omega
      · rw [h, hf2] at hfa; omega
      · exact h
    · intro h
      rw [h]
      exact hf3
  rw [hSeq] at hsorted
  have hp0 := List.sorted_cons.mp hsorted
  have hs01 : s1.2 ≤ s0.2 := hp0.1 s1 (by simp)
  have hp1 := List.sorted_cons.mp hp0.2
  have hs12 : s2.2 ≤ s1.2 := hp1.1 s2 (by simp)
  have hp2 := List.sorted_cons.mp hp1.2
  have hs23 : s3.2 ≤ s2.2 := hp2.1 s3 (by simp)
  rw [hind, hc0, hc1, hc2, hc3]
  refine ⟨?_, ?_, ?_⟩
  · rw [← hm0.1, ← hm1.1]
    exact hs01
  · rw [← hm1.1, ← hm2.1]
    exact hs12
  · rw [← hm2.1, ← hm3.1]
    exact hs23

/-- Witness for C5 on a two-pixel raster. -/
theorem quantizeImage_palette_sorted_witness :
    (quantizeImage [⟨9, 9, 9⟩, ⟨9, 9, 9⟩] 0 0 0 0).indices.count 1 ≤
      (quantizeImage [⟨9, 9, 9⟩, ⟨9, 9, 9⟩] 0 0 0 0).indices.count 0 ∧
    (quantizeImage [⟨9, 9, 9⟩, ⟨9, 9, 9⟩] 0 0 0 0).indices.count 2 ≤
      (quantizeImage [⟨9, 9, 9⟩, ⟨9, 9, 9⟩] 0 0 0 0).indices.count 1 ∧
    (quantizeImage [⟨9, 9, 9⟩, ⟨9, 9, 9⟩] 0 0 0 0).indices.count 3 ≤
      (quantizeImage [⟨9, 9, 9⟩, ⟨9, 9, 9⟩] 0 0 0 0).indices.count 2 :=
  quantizeImage_palette_sorted [⟨9, 9, 9⟩, ⟨9, 9, 9⟩] 0 0 0 0

/-! ## Mesh builder monotonicity (for C6, C7, C8) -/

theorem addVertex_triangles (b : MeshBuilder) (x y z : ℚ) :
    (b.addVertex x y z).1.triangles = b.triangles := by
  cases h : findKey (vkey x y z) b.vertexMap <;> simp [MeshBuilder.addVertex, h]

theorem addVertex_vertices_le (b : MeshBuilder) (x y z : ℚ) :
    b.vertices.length ≤ (b.addVertex x y z).1.vertices.length := by
  cases h : findKey (vkey x y z) b.vertexMap <;> simp [MeshBuilder.addVertex, h]

theorem addBox_triangles_len (b : MeshBuilder) (x y z w h d : ℚ) :
    (b.addBox x y z w h d).triangles.length = b.triangles.length + 36 := by
  unfold MeshBuilder.addBox
  dsimp only
  rw [List.length_append]
  rw [addVertex_triangles, addVertex_triangles, addVertex_triangles, addVertex_triangles,
    addVertex_triangles, addVertex_triangles, addVertex_triangles, addVertex_triangles]
  rfl

theorem addBox_vertices_le (b : MeshBuilder) (x y z w h d : ℚ) :
    b.vertices.length ≤ (b.addBox x y z w h d).vertices.length := by
  unfold MeshBuilder.addBox
  dsimp only
  exact le_trans (addVertex_vertices_le _ _ _ _)
    (le_trans (addVertex_vertices_le _ _ _ _)
      (le_trans (addVertex_vertices_le _ _ _ _)
        (le_trans (addVertex_vertices_le _ _ _ _)
          (le_trans (addVertex_vertices_le _ _ _ _)
            (le_trans (addVertex_vertices_le _ _ _ _)
              (le_trans (addVertex_vertices_le _ _ _ _)
                (addVertex_vertices_le _ _ _ _)))))))

theorem empty_addBox_vertices_pos (x y z w h d : ℚ) :
    0 < (MeshBuilder.empty.addBox x y z w h d).vertices.length := by
  have h3 : (MeshBuilder.empty.addVertex x y z).1.vertices.length = 3 := rfl
  have hle : (MeshBuilder.empty.addVertex x y z).1.vertices.length ≤
      (MeshBuilder.empty.addBox x y z w h d).vertices.length := by
    unfold MeshBuilder.addBox
    dsimp only
    exact le_trans (addVertex_vertices_le _ _ _ _)
      (le_trans (addVertex_vertices_le _ _ _ _)
        (le_trans (addVertex_vertices_le _ _ _ _)
          (le_trans (addVertex_vertices_le _ _ _ _)
            (le_trans (addVertex_vertices_le _ _ _ _)
              (le_trans (addVertex_vertices_le _ _ _ _)
                (addVertex_vertices_le _ _ _ _))))))
  omega

/-! ## Row scan lemmas for the STL-side loop -/

theorem rowStepSTL_tri_le (indices : ℕ → ℕ) (c y : ℕ) (zStart height : ℚ)
    (st : MeshBuilder × Option ℕ) (x : ℕ) :
    st.1.triangles.length ≤
      (rowStepSTL indices c y zStart height st x).1.triangles.length := by
  obtain ⟨b, opt⟩ := st
  unfold rowStepSTL
  by_cases hp : indices (y * CANVAS_WIDTH + x) = c
  · rw [if_pos hp]
    cases opt <;> exact le_refl _
  · rw [if_neg hp]
    cases opt with
    | none => exact le_refl _
    | some sx =>
      dsimp only
      rw [addBox_triangles_len]
      omega

theorem rowStepSTL_vert_le (indices : ℕ → ℕ) (c y : ℕ) (zStart height : ℚ)
    (st : MeshBuilder × Option ℕ) (x : ℕ) :
    st.1.vertices.length ≤
      (rowStepSTL indices c y zStart height st x).1.vertices.length := by
  obtain ⟨b, opt⟩ := st
  unfold rowStepSTL
  by_cases hp : indices (y * CANVAS_WIDTH + x) = c
  · rw [if_pos hp]
    cases opt <;> exact le_refl _
  · rw [if_neg hp]
    cases opt with
    | none => exact le_refl _
    | some sx =>
      dsimp only
      exact addBox_vertices_le _ _ _ _ _ _ _

theorem rowStepSTL_some (indices : ℕ → ℕ) (c y : ℕ) (zStart height : ℚ)
    (st : MeshBuilder × Option ℕ) (x : ℕ) (h : st.2.isSome = true) :
    (rowStepSTL indices c y zStart height st x).2.isSome = true ∨
      st.1.triangles.length <
        (rowStepSTL indices c y zStart height st x).1.triangles.length := by
  obtain ⟨b, opt⟩ := st
  cases opt with
  | none => simp at h
  | some sx =>
    unfold rowStepSTL
    by_cases hp : indices (y * CANVAS_WIDTH + x) = c
    · rw [if_pos hp]
      left
      rfl
    · rw [if_neg hp]
      right
      dsimp only
      rw [addBox_triangles_len]
      omega

theorem rowStepSTL_pixel (indices : ℕ → ℕ) (c y : ℕ) (zStart height : ℚ)
    (st : MeshBuilder × Option ℕ) (x : ℕ) (h : indices (y * CANVAS_WIDTH + x) = c) :
    (rowStepSTL indices c y zStart height st x).2.isSome = true := by
  obtain ⟨b, opt⟩ := st
  unfold rowStepSTL
  rw [if_pos h]
  cases opt <;> rfl

theorem foldRow_tri_le (indices : ℕ → ℕ) (c y : ℕ) (zStart height : ℚ) :
    ∀ (l : List ℕ) (st : MeshBuilder × Option ℕ),
      st.1.triangles.length ≤
        (l.foldl (rowStepSTL indices c y zStart height) st).1.triangles.length := by
  intro l
  induction l with
  | nil => intro st; exact le_refl _
  | cons a rest ih =>
    intro st
    rw [List.foldl_cons]
    exact le_trans (rowStepSTL_tri_le _ _ _ _ _ st a) (ih _)

theorem foldRow_vert_le (indices : ℕ → ℕ) (c y : ℕ) (zStart height : ℚ) :
    ∀ (l : List ℕ) (st : MeshBuilder × Option ℕ),
      st.1.vertices.length ≤
        (l.foldl (rowStepSTL indices c y zStart height) st).1.vertices.length := by
  intro l
  induction l with
  | nil => intro st; exact le_refl _
  | cons a rest ih =>
    intro st
    rw [List.foldl_cons]
    exact le_trans (rowStepSTL_vert_le _ _ _ _ _ st a) (ih _)

theorem foldRow_grow (indices : ℕ → ℕ) (c y : ℕ) (zStart height : ℚ) :
    ∀ (l : List ℕ) (st : MeshBuilder × Option ℕ) (b0len : ℕ),
      b0len ≤ st.1.triangles.length →
      ((∃ x ∈ l, indices (y * CANVAS_WIDTH + x) = c) ∨
        b0len < st.1.triangles.length ∨ st.2.isSome = true) →
      (b0len < (l.foldl (rowStepSTL indices c y zStart height) st).1.triangles.length ∨
        (l.foldl (rowStepSTL indices c y zStart height) st).2.isSome = true) := by
  intro l
  induction l with
  | nil =>
    intro st b0len hle hc
    rcases hc with ⟨x, hx, -⟩ | h | h
    · exact absurd hx (List.not_mem_nil x)
    · exact Or.inl h
    · exact Or.inr h
  | cons a rest ih =>
    intro st b0len hle hc
    rw [List.foldl_cons]
    have hle1 : b0len ≤ (rowStepSTL indices c y zStart height st a).1.triangles.length :=
      le_trans hle (rowStepSTL_tri_le _ _ _ _ _ st a)
    apply ih _ _ hle1
    rcases hc with ⟨x, hx, hxc⟩ | h | h
    · rcases List.mem_cons.mp hx with rfl | hx2
      · exact Or.inr (Or.inr (rowStepSTL_pixel _ _ _ _ _ st x hxc))
      · exact Or.inl ⟨x, hx2, hxc⟩
    · exact Or.inr (Or.inl (lt_of_lt_of_le h (rowStepSTL_tri_le _ _ _ _ _ st a)))
    · rcases rowStepSTL_some _ _ _ _ _ st a h with h2 | h2
      · exact Or.inr (Or.inr h2)
      · exact Or.inr (Or.inl (lt_of_le_of_lt hle h2))

theorem scanRowSTL_tri_le (indices : ℕ → ℕ) (c y : ℕ) (zStart height : ℚ)
    (b : MeshBuilder) :
    b.triangles.length ≤ (scanRowSTL indices c y zStart height b).triangles.length := by
  unfold scanRowSTL
  dsimp only
  have h1 : b.triangles.length ≤ ((List.range CANVAS_WIDTH).foldl
      (rowStepSTL indices c y zStart height) (b, none)).1.triangles.length :=
    foldRow_tri_le indices c y zStart height (List.range CANVAS_WIDTH) (b, none)
  cases h2 : ((List.range CANVAS_WIDTH).foldl
      (rowStepSTL indices c y zStart height) (b, none)).2 with
  | none => exact h1
  | some sx =>
    rw [addBox_triangles_len]
    omega

theorem scanRowSTL_vert_le (indices : ℕ → ℕ) (c y : ℕ) (zStart height : ℚ)
    (b : MeshBuilder) :
    b.vertices.length ≤ (scanRowSTL indices c y zStart height b).vertices.length := by
  unfold scanRowSTL
  dsimp only
  have h1 : b.vertices.length ≤ ((List.range CANVAS_WIDTH).foldl
      (rowStepSTL indices c y zStart height) (b, none)).1.vertices.length :=
    foldRow_vert_le indices c y zStart height (List.range CANVAS_WIDTH) (b, none)
  cases h2 : ((List.range CANVAS_WIDTH).foldl
      (rowStepSTL indices c y zStart height) (b, none)).2 with
  | none => exact h1
  | some sx =>
    exact le_trans h1 (addBox_vertices_le _ _ _ _ _ _ _)

theorem scanRowSTL_grows (indices : ℕ → ℕ) (c y : ℕ) (zStart height : ℚ)
    (b : MeshBuilder)
    (hex : ∃ x, x < CANVAS_WIDTH ∧ indices (y * CANVAS_WIDTH + x) = c) :
    b.triangles.length < (scanRowSTL indices c y zStart height b).triangles.length := by
  unfold scanRowSTL
  dsimp only
  have h0 := foldRow_grow indices c y zStart height (List.range CANVAS_WIDTH) (b, none)
    b.triangles.length (le_refl _)
    (Or.inl (by
      obtain ⟨x, hx, hc⟩ := hex
      exact ⟨x, List.mem_range.mpr hx, hc⟩))
  have h1 : b.triangles.length ≤ ((List.range CANVAS_WIDTH).foldl
      (rowStepSTL indices c y zStart height) (b, none)).1.triangles.length :=
    foldRow_tri_le indices c y zStart height (List.range CANVAS_WIDTH) (b, none)
  cases h2 : ((List.range CANVAS_WIDTH).foldl
      (rowStepSTL indices c y zStart height) (b, none)).2 with
  | none =>
    rcases h0 with h | h
    · exact h
    · rw [h2] at h
      simp at h
  | some sx =>
    rw [addBox_triangles_len]
    omega

theorem scanRowSTL_none (indices : ℕ → ℕ) (c y : ℕ) (zStart height : ℚ)
    (b : MeshBuilder)
    (hno : ∀ x, x < CANVAS_WIDTH → indices (y * CANVAS_WIDTH + x) ≠ c) :
    scanRowSTL indices c y zStart height b = b := by
  unfold scanRowSTL
  dsimp only
  have key : ∀ (l : List ℕ), (∀ x ∈ l, indices (y * CANVAS_WIDTH + x) ≠ c) →
      l.foldl (rowStepSTL indices c y zStart height) (b, none) = (b, none) := by
    intro l
    induction l with
    | nil => intro _; rfl
    | cons a rest ih =>
      intro hl
      rw [List.foldl_cons]
      have hstep : rowStepSTL indices c y zStart height (b, none) a = (b, none) := by
        unfold rowStepSTL
        rw [if_neg (hl a (List.mem_cons_self _ _))]
      rw [hstep]
      exact ih fun x hx => hl x (List.mem_cons_of_mem _ hx)
  rw [key (List.range CANVAS_WIDTH) (fun x hx => hno x (List.mem_range.mp hx))]

theorem rowsFold_tri_le (indices : ℕ → ℕ) (c : ℕ) (zStart height : ℚ) :
    ∀ (rows : List ℕ) (b : MeshBuilder),
      b.triangles.length ≤
        (rows.foldl (fun b y => scanRowSTL indices c y zStart height b) b).triangles.length := by
  intro rows
  induction rows with
  | nil => intro b; exact le_refl _
  | cons r rest ih =>
    intro b
    rw [List.foldl_cons]
    exact le_trans (scanRowSTL_tri_le _ _ _ _ _ b) (ih _)

theorem rowsFold_vert_le (indices : ℕ → ℕ) (c : ℕ) (zStart height : ℚ) :
    ∀ (rows : List ℕ) (b : MeshBuilder),
      b.vertices.length ≤
        (rows.foldl (fun b y => scanRowSTL indices c y zStart height b) b).vertices.length := by
  intro rows
  induction rows with
  | nil => intro b; exact le_refl _
  | cons r rest ih =>
    intro b
    rw [List.foldl_cons]
    exact le_trans (scanRowSTL_vert_le _ _ _ _ _ b) (ih _)

theorem rowsFold_grows (indices : ℕ → ℕ) (c : ℕ) (zStart height : ℚ) :
    ∀ (rows : List ℕ) (b : MeshBuilder),
      (∃ y ∈ rows, ∃ x, x < CANVAS_WIDTH ∧ indices (y * CANVAS_WIDTH + x) = c) →
      b.triangles.length <
        (rows.foldl (fun b y => scanRowSTL indices c y zStart height b) b).triangles.length := by
  intro rows
  induction rows with
  | nil =>
    intro b h
    obtain ⟨y, hy, -⟩ := h
    exact absurd hy (List.not_mem_nil y)
  | cons r rest ih =>
    intro b h
    rw [List.foldl_cons]
    obtain ⟨y, hy, hx⟩ := h
    rcases List.mem_cons.mp hy with rfl | hy2
    · exact lt_of_lt_of_le (scanRowSTL_grows _ _ _ _ _ b hx)
        (rowsFold_tri_le _ _ _ _ rest _)
    · exact lt_of_le_of_lt (scanRowSTL_tri_le _ _ _ _ _ b) (ih _ ⟨y, hy2, hx⟩)

theorem rowsFold_none (indices : ℕ → ℕ) (c : ℕ) (zStart height : ℚ) :
    ∀ (rows : List ℕ) (b : MeshBuilder),
      (∀ y ∈ rows, ∀ x, x < CANVAS_WIDTH → indices (y * CANVAS_WIDTH + x) ≠ c) →
      rows.foldl (fun b y => scanRowSTL indices c y zStart height b) b = b := by
  intro rows
  induction rows with
  | nil => intro b _; rfl
  | cons r rest ih =>
    intro b hno
    rw [List.foldl_cons]
    rw [scanRowSTL_none _ _ _ _ _ b (hno r (List.mem_cons_self _ _))]
    exact ih b fun y hy => hno y (List.mem_cons_of_mem _ hy)

theorem layerMeshSTL_zero_tri_pos (indices : ℕ → ℕ) (settings : BookmarkSettings) :
    0 < (layerMeshSTL indices settings 0).triangles.length := by
  unfold layerMeshSTL
  dsimp only [MeshBuilder.getData]
  rw [if_pos rfl]
  have h1 : 0 < (MeshBuilder.empty.addBox 0 0 0 BOOKMARK_WIDTH_MM BOOKMARK_HEIGHT_MM
      settings.baseHeight).triangles.length := by
    rw [addBox_triangles_len]
    omega
  exact lt_of_lt_of_le h1 (rowsFold_tri_le _ _ _ _ _ _)

theorem layerMeshSTL_zero_vert_pos (indices : ℕ → ℕ) (settings : BookmarkSettings) :
    0 < (layerMeshSTL indices settings 0).vertices.length := by
  unfold layerMeshSTL
  dsimp only [MeshBuilder.getData]
  rw [if_pos rfl]
  exact lt_of_lt_of_le (empty_addBox_vertices_pos _ _ _ _ _ _)
    (rowsFold_vert_le _ _ _ _ _ _)

theorem layerMeshSTL_tri_iff (indices : ℕ → ℕ) (settings : BookmarkSettings) (c : ℕ)
    (hc : c ≠ 0) :
    0 < (layerMeshSTL indices settings c).triangles.length ↔
      ∃ y, y < CANVAS_HEIGHT ∧ ∃ x, x < CANVAS_WIDTH ∧
        indices (y * CANVAS_WIDTH + x) = c := by
  unfold layerMeshSTL
  dsimp only [MeshBuilder.getData]
  rw [if_neg hc]
  constructor
  · intro hpos
    by_contra hno
    push_neg at hno
    rw [rowsFold_none indices c _ _ (List.range CANVAS_HEIGHT) MeshBuilder.empty
      (fun y hy x hx hxc => hno y (List.mem_range.mp hy) x hx hxc)] at hpos
    simp [MeshBuilder.empty] at hpos
  · intro hex
    obtain ⟨y, hy, hx⟩ := hex
    have hgt := rowsFold_grows indices c settings.baseHeight
      (settings.layerHeights.getD c 0) (List.range CANVAS_HEIGHT) MeshBuilder.empty
      ⟨y, List.mem_range.mpr hy, hx⟩
    simpa [MeshBuilder.empty] using hgt

/-- C8: a pixel row entirely filled with the target slot index produces
exactly one box for that row: the row scan equals a single addBox call at
x = 0 spanning the full physical width BOOKMARK_WIDTH_MM, and
CANVAS_WIDTH * scaleX = BOOKMARK_WIDTH_MM. -/
theorem scanRowSTL_full_row (indices : ℕ → ℕ) (c y : ℕ) (zStart height : ℚ)
    (b : MeshBuilder)
    (hfull : ∀ x, x < CANVAS_WIDTH → indices (y * CANVAS_WIDTH + x) = c) :
    scanRowSTL indices c y zStart height b =
      b.addBox 0 (((CANVAS_HEIGHT : ℚ) - 1 - (y : ℚ)) * scaleY) zStart BOOKMARK_WIDTH_MM
        (1 * scaleY) height ∧
    (CANVAS_WIDTH : ℚ) * scaleX = BOOKMARK_WIDTH_MM := by
  constructor
  · unfold scanRowSTL
    dsimp only
    have key : ∀ n, 1 ≤ n → n ≤ CANVAS_WIDTH →
        (List.range n).foldl (rowStepSTL indices c y zStart height) (b, none) =
          (b, some 0) := by
      intro n
      induction n with
      | zero =>
        intro h
        exact absurd h (by decide)
      | succ n ih =>
        intro _ hle
        rcases Nat.eq_zero_or_pos n with rfl | hn
        · have h0 : indices (y * CANVAS_WIDTH + 0) = c := hfull 0 (by norm_num [CANVAS_WIDTH])
          rw [List.range_succ, List.range_zero, List.nil_append, List.foldl_cons,
            List.foldl_nil]
          unfold rowStepSTL
          rw [if_pos h0]
        · rw [List.range_succ, List.foldl_append, ih hn (by omega), List.foldl_cons,
            List.foldl_nil]
          unfold rowStepSTL
          rw [if_pos (hfull n (by omega))]
    rw [key CANVAS_WIDTH (by norm_num [CANVAS_WIDTH]) (le_refl _)]
    dsimp only
    norm_num [scaleX, CANVAS_WIDTH, BOOKMARK_WIDTH_MM]
  · norm_num [scaleX, CANVAS_WIDTH, BOOKMARK_WIDTH_MM]

/-- Witness for C8: a row filled with slot 1. -/
theorem scanRowSTL_full_row_witness :
    scanRowSTL (fun _ => 1) 1 0 (6 / 10) 1 MeshBuilder.empty =
      MeshBuilder.empty.addBox 0 (((CANVAS_HEIGHT : ℚ) - 1 - ((0 : ℕ) : ℚ)) * scaleY)
        (6 / 10) BOOKMARK_WIDTH_MM (1 * scaleY) 1 ∧
    (CANVAS_WIDTH : ℚ) * scaleX = BOOKMARK_WIDTH_MM :=
  scanRowSTL_full_row (fun _ => 1) 1 0 (6 / 10) 1 MeshBuilder.empty (fun _ _ => rfl)

/-! ## Keys of the generateSTLs result (C6) -/

theorem stlName_inj : ∀ c1, c1 < 4 → ∀ c2, c2 < 4 → stlName c1 = stlName c2 → c1 = c2 := by
  decide

theorem generateSTLs_fold_keys (indices : ℕ → ℕ) (settings : BookmarkSettings) :
    ∀ (l : List ℕ) (acc : List (String × STLBuffer)) (name : String),
      (name ∈ (l.foldl (fun result c =>
          let data := layerMeshSTL indices settings c
          if data.triangles.length > 0 then result ++ [(stlName c, writeBinarySTL data)]
          else result) acc).map Prod.fst) ↔
        (name ∈ acc.map Prod.fst ∨
          ∃ c ∈ l, 0 < (layerMeshSTL indices settings c).triangles.length ∧
            stlName c = name) := by
  intro l
  induction l with
  | nil =>
    intro acc name
    simp
  | cons a rest ih =>
    intro acc name
    rw [List.foldl_cons]
    dsimp only
    by_cases hcond : (layerMeshSTL indices settings a).triangles.length > 0
    · rw [if_pos hcond, ih]
      constructor
      · intro h
        rcases h with h | ⟨c, hc, hpos, hname⟩
        · rw [List.map_append] at h
          rcases List.mem_append.mp h with h2 | h2
          · left
            exact h2
          · simp only [List.map_cons, List.map_nil, List.mem_singleton] at h2
            right
            exact ⟨a, List.mem_cons_self _ _, hcond, h2.symm⟩
        · right
          exact ⟨c, List.mem_cons_of_mem _ hc, hpos, hname⟩
      · intro h
        rcases h with h | ⟨c, hc, hpos, hname⟩
        · left
          rw [List.map_append]
          exact List.mem_append.mpr (Or.inl h)
        · rcases List.mem_cons.mp hc with rfl | hc2
          · left
            rw [List.map_append]
            apply List.mem_append.mpr
            right
            simp [hname.symm]
          · right
            exact ⟨c, hc2, hpos, hname⟩
    · rw [if_neg hcond, ih]
      constructor
      · intro h
        rcases h with h | ⟨c, hc, hpos, hname⟩
        · left
          exact h
        · right
          exact ⟨c, List.mem_cons_of_mem _ hc, hpos, hname⟩
      · intro h
        rcases h with h | ⟨c, hc, hpos, hname⟩
        · left
          exact h
        · rcases List.mem_cons.mp hc with rfl | hc2
          · exact absurd hpos hcond
          · right
            exact ⟨c, hc2, hpos, hname⟩

theorem generateSTLs_key_iff (indices : ℕ → ℕ) (settings : BookmarkSettings) (c : ℕ)
    (hc : c < 4) :
    stlName c ∈ (generateSTLs indices settings).map Prod.fst ↔
      0 < (layerMeshSTL indices settings c).triangles.length := by
  unfold generateSTLs
  rw [generateSTLs_fold_keys]
  simp only [List.map_nil, List.not_mem_nil, false_or]
  constructor
  · rintro ⟨c2, hc2, hpos, hname⟩
    have hc2lt : c2 < 4 := List.mem_range.mp hc2
    have heq := stlName_inj c2 hc2lt c hc hname
    rwa [← heq]
  · intro hpos
    exact ⟨c, List.mem_range.mpr hc, hpos, rfl⟩

/-- C6: the mapping returned by generateSTLs always contains the slot 0 base
file (the mandatory base plate gives slot 0 a nonzero triangle count
independent of pixel content), and for each slot c in 1..3 it contains the
layer file exactly when at least one pixel carries index c; a layer with no
matching pixels is simply absent (generateSTLs is a total function, so the
omission raises no error). -/
theorem generateSTLs_layers (indices : ℕ → ℕ) (settings : BookmarkSettings) :
    "Color_1_Base.stl" ∈ (generateSTLs indices settings).map Prod.fst ∧
    ∀ c, 1 ≤ c → c ≤ 3 →
      (stlName c ∈ (generateSTLs indices settings).map Prod.fst ↔
        ∃ y, y < CANVAS_HEIGHT ∧ ∃ x, x < CANVAS_WIDTH ∧
          indices (y * CANVAS_WIDTH + x) = c) := by
  constructor
  · have h0 : stlName 0 = "Color_1_Base.stl" := rfl
    rw [← h0, generateSTLs_key_iff indices settings 0 (by norm_num)]
    exact layerMeshSTL_zero_tri_pos indices settings
  · intro c h1 h3
    rw [generateSTLs_key_iff indices settings c (by omega)]
    exact layerMeshSTL_tri_iff indices settings c (by omega)

/-- Witness for C6 on the all-zero index map. -/
theorem generateSTLs_layers_witness :
    "Color_1_Base.stl" ∈ (generateSTLs (fun _ => 0)
      ⟨6 / 10, [6 / 10, 8 / 10, 1, 12 / 10], false, 50, 160, 0⟩).map Prod.fst ∧
    (stlName 1 ∈ (generateSTLs (fun _ => 0)
        ⟨6 / 10, [6 / 10, 8 / 10, 1, 12 / 10], false, 50, 160, 0⟩).map Prod.fst ↔
      ∃ y, y < CANVAS_HEIGHT ∧ ∃ x, x < CANVAS_WIDTH ∧
        (fun _ : ℕ => 0) (y * CANVAS_WIDTH + x) = 1) :=
  ⟨(generateSTLs_layers (fun _ => 0)
      ⟨6 / 10, [6 / 10, 8 / 10, 1, 12 / 10], false, 50, 160, 0⟩).1,
   (generateSTLs_layers (fun _ => 0)
      ⟨6 / 10, [6 / 10, 8 / 10, 1, 12 / 10], false, 50, 160, 0⟩).2 1 (by norm_num)
      (by norm_num)⟩

/-- C9: the duplicated layer-geometry loops of generateSTLs and generate3MF
are extensionally equal: for every index map, settings and palette slot the
two loops build the same mesh, vertex for vertex and triangle for triangle. -/
theorem layerMesh_generators_agree (indices : ℕ → ℕ) (settings : BookmarkSettings)
    (c : ℕ) : layerMeshSTL indices settings c = layerMesh3MF indices settings c := rfl

/-! ## Resource ids of the packaged model (C7) -/

theorem layerMesh3MF_eq_STL (indices : ℕ → ℕ) (settings : BookmarkSettings) (c : ℕ) :
    layerMesh3MF indices settings c = layerMeshSTL indices settings c := rfl

/-- C7: in the packaged model the numeric resource identifiers are pairwise
distinct and drawn from disjoint fixed ranges: between one and four layer
objects are emitted (slot 0 is always populated by the base plate), each
layer object id is its palette slot plus one (hence in 1..4), the assembly
object id is the reserved constant 100 and the material resource id is the
reserved constant 200, and the full list of declared resource ids is
duplicate free. -/
theorem generate3MF_ids_disjoint (indices : ℕ → ℕ) (settings : BookmarkSettings)
    (palette : List RGB) :
    (1 ≤ (meshObjects3MF indices settings palette).length ∧
      (meshObjects3MF indices settings palette).length ≤ 4) ∧
    (∀ m ∈ meshObjects3MF indices settings palette,
      m.id = m.paletteIdx + 1 ∧ 1 ≤ m.id ∧ m.id ≤ 4) ∧
    containerId = 100 ∧ materialId = 200 ∧
    (modelResourceIds (meshObjects3MF indices settings palette)).Nodup := by
  have hpop0 : (layerMesh3MF indices settings 0).vertices.length > 0 := by
    rw [layerMesh3MF_eq_STL]
    exact layerMeshSTL_zero_vert_pos indices settings
  unfold meshObjects3MF
  have hr4 : List.range 4 = [0, 1, 2, 3] := by decide
  rw [hr4]
  simp only [List.foldl_cons, List.foldl_nil]
  rw [if_pos hpop0]
  split_ifs with h1 h2 h3 <;>
    refine ⟨⟨by simp, by simp⟩, ?_, rfl, rfl,
      by simp only [modelResourceIds, List.nil_append, List.map_append, List.map_cons,
        List.map_nil, List.append_nil]; decide⟩ <;>
    · intro m hm
      simp only [List.nil_append, List.mem_append, List.mem_cons, List.not_mem_nil,
        or_false] at hm
      rcases hm with ((rfl | rfl) | rfl) | rfl <;>
        exact ⟨rfl, by norm_num, by norm_num⟩

/-- Witness for C7 at a concrete input. -/
theorem generate3MF_ids_disjoint_witness :
    containerId = 100 ∧ materialId = 200 ∧
    (modelResourceIds (meshObjects3MF (fun _ => 0)
      ⟨6 / 10, [6 / 10, 8 / 10, 1, 12 / 10], false, 50, 160, 0⟩ [])).Nodup :=
  (generate3MF_ids_disjoint (fun _ => 0)
    ⟨6 / 10, [6 / 10, 8 / 10, 1, 12 / 10], false, 50, 160, 0⟩ []).2.2
